/-
Verification of the noise-schedule core of Diff-Recon (`src/diffusion_utils.py`).

The Python floats are embedded as exact rationals (for the schedule arithmetic:
`torch.linspace`, `1 - betas`, `torch.cumprod`) and exact reals (for the two
derived square-root sequences, via `Real.sqrt`).  Torch tensors are embedded as
a `shape` together with a row-major flat `data` function, with torch's
right-aligned broadcasting rules, torch advanced indexing (including its
Python-style negative-index wrap-around), and `view(-1, 1, 1)` modelled
faithfully.  Fallible torch operations return `Except TorchError`, mirroring
the exceptions the library raises (`IndexError` on out-of-range gather
indices, a runtime shape error on incompatible broadcasts, and the runtime
error `torch.linspace` raises for a negative step count).

`torch.randn_like(x)` is the one source of randomness; it always returns a
tensor of the same shape and dtype as `x`, so `add_noise` is embedded with the
drawn noise `ε` passed explicitly as an argument whose shape matches `x_start`.
-/

import Mathlib

set_option autoImplicit false

/-- Errors raised by the torch operations used in `diffusion_utils.py`. -/
inductive TorchError : Type where
  /-- Raised as `IndexError` when a gather index is out of range. -/
  | indexError : TorchError
  /-- Raised as `RuntimeError` when two shapes cannot be broadcast together. -/
  | shapeError : TorchError
  /-- Raised as `RuntimeError` when `torch.linspace` is given a negative number of steps. -/
  | negativeStepsError : TorchError
deriving DecidableEq

/-- Decidable equality of `Except` results, for evaluating concrete runs. -/
instance {ε α : Type} [DecidableEq ε] [DecidableEq α] : DecidableEq (Except ε α) :=
  fun x y =>
    match x, y with
    | .ok a, .ok b =>
        if h : a = b then .isTrue (by rw [h])
        else .isFalse (fun hc => h (Except.ok.inj hc))
    | .error a, .error b =>
        if h : a = b then .isTrue (by rw [h])
        else .isFalse (fun hc => h (Except.error.inj hc))
    | .ok _, .error _ => .isFalse (fun hc => Except.noConfusion hc)
    | .error _, .ok _ => .isFalse (fun hc => Except.noConfusion hc)

namespace torch

/-- The list of `steps` evenly spaced rationals from `s` to `e` inclusive;
for one step the list is exactly `[s]`.  Mirrors `torch.linspace` on a
non-negative step count. -/
def linspaceList (s e : ℚ) (steps : ℕ) : List ℚ :=
  if steps = 1 then [s]
  else List.ofFn (fun i : Fin steps => s + (i : ℚ) * (e - s) / ((steps : ℚ) - 1))

/-- Embeds `torch.linspace(s, e, steps)`: raises a runtime error for a negative
`steps`, otherwise returns the evenly spaced list. -/
def linspace (s e : ℚ) (steps : ℤ) : Except TorchError (List ℚ) :=
  if steps < 0 then .error .negativeStepsError
  else .ok (linspaceList s e steps.toNat)

/-- Running products accumulated left to right, seeded with `acc`. -/
def cumprodAux (acc : ℚ) : List ℚ → List ℚ
  | [] => []
  | x :: xs => (acc * x) :: cumprodAux (acc * x) xs

/-- Embeds `torch.cumprod(l, axis=0)` on a 1-D tensor: element `i` is the product
`l[0] * l[1] * ... * l[i]`, taken in increasing index order. -/
def cumprod (l : List ℚ) : List ℚ := cumprodAux 1 l

end torch

/-- The state of `DiffusionScheduler` after `__init__`: the rational-valued
precomputed schedule.  The two square-root sequences are real-valued and are
derived below (`DiffusionScheduler.sqrt_alphas_cumprod`,
`DiffusionScheduler.sqrt_one_minus_alphas_cumprod`). -/
structure DiffusionScheduler : Type where
  timesteps : ℤ
  betas : List ℚ
  alphas : List ℚ
  alphas_cumprod : List ℚ
deriving DecidableEq

/-- Embeds `DiffusionScheduler.__init__(timesteps, beta_start, beta_end)`:
`betas = torch.linspace(beta_start, beta_end, timesteps)`,
`alphas = 1.0 - betas`, `alphas_cumprod = torch.cumprod(alphas, axis=0)`.
The construction performs no validation of its own; the only failure is the
one `torch.linspace` raises. -/
def DiffusionScheduler.init (timesteps : ℤ) (beta_start beta_end : ℚ) :
    Except TorchError DiffusionScheduler :=
  match torch.linspace beta_start beta_end timesteps with
  | .error e => .error e
  | .ok betas =>
      let alphas := betas.map (fun b => 1 - b)
      .ok ⟨timesteps, betas, alphas, torch.cumprod alphas⟩

/-- Embeds `self.sqrt_alphas_cumprod = torch.sqrt(self.alphas_cumprod)`. -/
noncomputable def DiffusionScheduler.sqrt_alphas_cumprod
    (s : DiffusionScheduler) : List ℝ :=
  s.alphas_cumprod.map (fun q : ℚ => Real.sqrt (q : ℝ))

/-- Embeds `self.sqrt_one_minus_alphas_cumprod = torch.sqrt(1.0 - self.alphas_cumprod)`. -/
noncomputable def DiffusionScheduler.sqrt_one_minus_alphas_cumprod
    (s : DiffusionScheduler) : List ℝ :=
  s.alphas_cumprod.map (fun q : ℚ => Real.sqrt (1 - (q : ℝ)))

/-- A torch tensor: a shape and a total row-major flat-index data function
(indices past the tensor's extent are never read by in-contract operations). -/
structure Tensor (α : Type) : Type where
  shape : List ℕ
  data : ℕ → α

/-- Multi-index of flat index `k` with respect to a REVERSED shape
(innermost dimension first): repeated div/mod. -/
def coordRev : List ℕ → ℕ → List ℕ
  | [], _ => []
  | s :: rest, k => (k % s) :: coordRev rest (k / s)

/-- Flat index into an operand of reversed shape `rsa` from the reversed
multi-index `cs` of a broadcast output (whose rank is at least the operand's);
a size-1 operand dimension is pinned to coordinate 0, and the output's extra
leading dimensions (the tail of the reversed index) are dropped.  This is
torch's broadcast indexing rule. -/
def projRev : List ℕ → List ℕ → ℕ
  | [], _ => 0
  | _ :: _, [] => 0
  | s :: rest, c :: cs => (if s = 1 then 0 else c) + s * projRev rest cs

/-- Broadcast of one pair of dimension sizes: equal sizes agree, a size of 1
stretches to the other size, anything else is an error. -/
def dimB (x y : ℕ) : Option ℕ :=
  if x = y then some x
  else if x = 1 then some y
  else if y = 1 then some x
  else none

/-- Broadcast of two REVERSED shapes (right-aligned in the usual order):
missing leading dimensions are treated as size 1. -/
def bcastShapeRev : List ℕ → List ℕ → Option (List ℕ)
  | [], ys => some ys
  | x :: xs, [] => some (x :: xs)
  | x :: xs, y :: ys =>
      match dimB x y, bcastShapeRev xs ys with
      | some d, some rest => some (d :: rest)
      | _, _ => none

/-- A broadcasting elementwise binary torch operation (`*` or `+` here):
fails with the shape error when the shapes are not broadcastable, otherwise
produces the broadcast shape with each operand read through `projRev`. -/
def tbinop {α : Type} (f : α → α → α) (a b : Tensor α) :
    Except TorchError (Tensor α) :=
  match bcastShapeRev a.shape.reverse b.shape.reverse with
  | none => .error .shapeError
  | some rsh =>
      .ok ⟨rsh.reverse, fun k =>
        f (a.data (projRev a.shape.reverse (coordRev rsh k)))
          (b.data (projRev b.shape.reverse (coordRev rsh k)))⟩

/-- Embeds `.view(-1, 1, 1)` applied to the 1-D gather result: a tensor of shape
`(len, 1, 1)` over the same data. -/
def view3 {α : Type} [Zero α] (l : List α) : Tensor α :=
  ⟨[l.length, 1, 1], fun k => l.getD k 0⟩

/-- Resolution of one advanced-indexing index into a dimension of size `n`:
torch accepts `-n ≤ v < n` and wraps a negative `v` to `v + n`, and raises
`IndexError` otherwise. -/
def gatherIdx (n : ℕ) (v : ℤ) : Except TorchError ℕ :=
  if -(n : ℤ) ≤ v ∧ v < (n : ℤ) then .ok ((if v < 0 then v + n else v).toNat)
  else .error .indexError

/-- The resolved (non-negative) index that torch uses for index `v` into a
dimension of size `n`: `v + n` for negative `v`, `v` itself otherwise. -/
def pyIdx (n : ℕ) (v : ℤ) : ℕ := (if v < 0 then v + n else v).toNat

/-- Effectful map over a list, stopping at the first error (the order in
which torch visits the gather indices). -/
def mapE {α β : Type} (f : α → Except TorchError β) : List α → Except TorchError (List β)
  | [] => .ok []
  | x :: xs =>
      match f x with
      | .error e => .error e
      | .ok y =>
          match mapE f xs with
          | .error e => .error e
          | .ok ys => .ok (y :: ys)

/-- Embeds `l[t]` for a 1-D tensor `l` and an integer index tensor `t`
(torch advanced indexing). -/
def gather {α : Type} [Zero α] (l : List α) (t : List ℤ) :
    Except TorchError (List α) :=
  mapE (fun v => (gatherIdx l.length v).map (fun i => l.getD i 0)) t

/-- The body of `DiffusionScheduler.add_noise` after the noise draw, generic
in the two coefficient tables:
`c1 = sac[t].view(-1,1,1)`, `c2 = somac[t].view(-1,1,1)`,
`x_noisy = c1 * x_start + c2 * noise`, returning `(x_noisy, noise)`.
The matches mirror Python's evaluation order: both gathers run before any
arithmetic, the `c1 * x_start` product is formed before `c2 * noise`, and the
sum comes last. -/
def addNoise {α : Type} [Zero α] [Mul α] [Add α]
    (sac somac : List α) (x_start : Tensor α) (t : List ℤ) (noise : Tensor α) :
    Except TorchError (Tensor α × Tensor α) :=
  match gather sac t with
  | .error e => .error e
  | .ok c1 =>
      match gather somac t with
      | .error e => .error e
      | .ok c2 =>
          match tbinop (fun a b => a * b) (view3 c1) x_start with
          | .error e => .error e
          | .ok p1 =>
              match tbinop (fun a b => a * b) (view3 c2) noise with
              | .error e => .error e
              | .ok p2 =>
                  match tbinop (fun a b => a + b) p1 p2 with
                  | .error e => .error e
                  | .ok x_noisy => .ok (x_noisy, noise)

/-- Embeds `DiffusionScheduler.add_noise(x_start, t)` with the freshly drawn
`noise = torch.randn_like(x_start)` passed explicitly.  Because the result is
a pure function of `(self, x_start, t, noise)`, re-running it on the same
arguments reproduces the same pair exactly. -/
noncomputable def DiffusionScheduler.add_noise (s : DiffusionScheduler)
    (x_start : Tensor ℝ) (t : List ℤ) (noise : Tensor ℝ) :
    Except TorchError (Tensor ℝ × Tensor ℝ) :=
  addNoise s.sqrt_alphas_cumprod s.sqrt_one_minus_alphas_cumprod x_start t noise

/-- State-passing rendering of the `add_noise` method call: the method body
contains no assignment to any field of `self`, no in-place tensor operation,
and no write to `x_start` (every torch call above allocates a fresh tensor),
so the translated post-state of `(self, x_start)` is the pre-state, paired
with the method's return value. -/
noncomputable def DiffusionScheduler.add_noise_state (s : DiffusionScheduler)
    (x_start : Tensor ℝ) (t : List ℤ) (noise : Tensor ℝ) :
    (DiffusionScheduler × Tensor ℝ) × Except TorchError (Tensor ℝ × Tensor ℝ) :=
  ((s, x_start), s.add_noise x_start t noise)

/-- Shape of the first component (`x_noisy`) of an `add_noise` result. -/
def resShape {α : Type} (r : Except TorchError (Tensor α × Tensor α)) :
    Except TorchError (List ℕ) :=
  Except.map (fun p => p.1.shape) r

/-- Flat-index read of the first component (`x_noisy`) of an `add_noise`
result (0 on error; in-contract uses are always on the `.ok` branch). -/
def resData {α : Type} [Zero α] (r : Except TorchError (Tensor α × Tensor α))
    (k : ℕ) : α :=
  match r with
  | .ok p => p.1.data k
  | .error _ => 0

/-- The second component (the returned noise) of an `add_noise` result. -/
def resNoise {α : Type} (r : Except TorchError (Tensor α × Tensor α)) :
    Except TorchError (Tensor α) :=
  Except.map (fun p => p.2) r

/-! ### Generic list helpers -/

theorem map_getD_of_lt {α β : Type} (g : α → β) (l : List α) (i : ℕ)
    (d : α) (d' : β) (hi : i < l.length) :
    (l.map g).getD i d' = g (l.getD i d) := by
  have hi' : i < (l.map g).length := by simpa using hi
  rw [List.getD_eq_getElem _ _ hi', List.getD_eq_getElem _ _ hi]
  simp

/-! ### Lemmas about `torch.linspace` -/

theorem linspaceList_length (s e : ℚ) (steps : ℕ) :
    (torch.linspaceList s e steps).length = steps := by
  unfold torch.linspaceList
  split
  · simp [*]
  · simp

theorem linspaceList_getD (s e : ℚ) (steps i : ℕ) (hi : i < steps) :
    (torch.linspaceList s e steps).getD i 0 =
      s + (i : ℚ) * (e - s) / ((steps : ℚ) - 1) := by
  unfold torch.linspaceList
  split
  · rename_i h1
    subst h1
    interval_cases i
    simp
  · have hi' : i < (List.ofFn
        (fun j : Fin steps => s + (j : ℚ) * (e - s) / ((steps : ℚ) - 1))).length := by
      simpa using hi
    rw [List.getD_eq_getElem _ _ hi']
    simp

/-! ### Lemmas about `torch.cumprod` -/

theorem cumprodAux_length (acc : ℚ) (l : List ℚ) :
    (torch.cumprodAux acc l).length = l.length := by
  induction l generalizing acc with
  | nil => rfl
  | cons x xs ih => simp [torch.cumprodAux, ih]

theorem cumprod_length (l : List ℚ) : (torch.cumprod l).length = l.length :=
  cumprodAux_length 1 l

theorem cumprodAux_getD (acc : ℚ) (l : List ℚ) (i : ℕ) (hi : i < l.length) :
    (torch.cumprodAux acc l).getD i 0 =
      acc * ∏ j ∈ Finset.range (i + 1), l.getD j 0 := by
  induction l generalizing acc i with
  | nil => simp at hi
  | cons x xs ih =>
      cases i with
      | zero => simp [torch.cumprodAux]
      | succ i =>
          have hi' : i < xs.length := by simpa using hi
          have hstep := ih (acc * x) i hi'
          calc (torch.cumprodAux acc (x :: xs)).getD (i + 1) 0
              = (torch.cumprodAux (acc * x) xs).getD i 0 := by
                simp [torch.cumprodAux]
            _ = acc * x * ∏ j ∈ Finset.range (i + 1), xs.getD j 0 := hstep
            _ = acc * ∏ j ∈ Finset.range (i + 2), (x :: xs).getD j 0 := by
                rw [Finset.prod_range_succ' (fun j => (x :: xs).getD j 0) (i + 1)]
                simp [mul_comm, mul_assoc, mul_left_comm]

theorem cumprod_getD (l : List ℚ) (i : ℕ) (hi : i < l.length) :
    (torch.cumprod l).getD i 0 = ∏ j ∈ Finset.range (i + 1), l.getD j 0 := by
  rw [torch.cumprod, cumprodAux_getD 1 l i hi, one_mul]

/-! ### Lemmas about `DiffusionScheduler.init` -/

theorem init_eq_ok (T : ℤ) (bs be : ℚ) (hT : 0 ≤ T) :
    DiffusionScheduler.init T bs be =
      .ok ⟨T, torch.linspaceList bs be T.toNat,
            (torch.linspaceList bs be T.toNat).map (fun b => 1 - b),
            torch.cumprod ((torch.linspaceList bs be T.toNat).map (fun b => 1 - b))⟩ := by
  unfold DiffusionScheduler.init torch.linspace
  rw [if_neg (not_lt.mpr hT)]

theorem init_fields (T : ℤ) (bs be : ℚ) (s : DiffusionScheduler)
    (h : DiffusionScheduler.init T bs be = .ok s) :
    0 ≤ T ∧ s.timesteps = T ∧ s.betas = torch.linspaceList bs be T.toNat ∧
      s.alphas = s.betas.map (fun b => 1 - b) ∧
      s.alphas_cumprod = torch.cumprod s.alphas := by
  by_cases hT : 0 ≤ T
  · rw [init_eq_ok T bs be hT] at h
    obtain rfl : _ = s := Except.ok.inj h
    exact ⟨hT, rfl, rfl, rfl, rfl⟩
  · exfalso
    unfold DiffusionScheduler.init torch.linspace at h
    rw [if_pos (lt_of_not_ge hT)] at h
    exact Except.noConfusion h

theorem init_lengths (T : ℤ) (bs be : ℚ) (s : DiffusionScheduler)
    (h : DiffusionScheduler.init T bs be = .ok s) :
    s.betas.length = T.toNat ∧ s.alphas.length = T.toNat ∧
      s.alphas_cumprod.length = T.toNat := by
  obtain ⟨-, -, hb, ha, hc⟩ := init_fields T bs be s h
  refine ⟨?_, ?_, ?_⟩
  · rw [hb, linspaceList_length]
  · rw [ha, List.length_map, hb, linspaceList_length]
  · rw [hc, cumprod_length, ha, List.length_map, hb, linspaceList_length]

/-! ### Range of the linear beta schedule -/

theorem convex_comb_mem (a b lam : ℚ) (ha0 : 0 < a) (ha1 : a < 1)
    (hb0 : 0 < b) (hb1 : b < 1) (hl0 : 0 ≤ lam) (hl1 : lam ≤ 1) :
    0 < a + lam * (b - a) ∧ a + lam * (b - a) < 1 := by
  rcases eq_or_lt_of_le hl1 with heq | hlt
  · rw [← heq]
    constructor <;> nlinarith
  · have h2 : 0 < 1 - lam := by linarith
    constructor
    · nlinarith [mul_pos h2 ha0, mul_nonneg hl0 hb0.le]
    · nlinarith [mul_lt_mul_of_pos_left ha1 h2, mul_le_mul_of_nonneg_left hb1.le hl0]

theorem linspaceList_getD_mem (s e : ℚ) (steps i : ℕ)
    (hs0 : 0 < s) (hs1 : s < 1) (he0 : 0 < e) (he1 : e < 1) (hi : i < steps) :
    0 < (torch.linspaceList s e steps).getD i 0 ∧
      (torch.linspaceList s e steps).getD i 0 < 1 := by
  rw [linspaceList_getD s e steps i hi]
  rcases Nat.lt_or_ge steps 2 with h2 | h2
  · have hsteps : steps = 1 := by omega
    subst hsteps
    have hi0 : i = 0 := by omega
    subst hi0
    simpa using ⟨hs0, hs1⟩
  · have hd : (0 : ℚ) < (steps : ℚ) - 1 := by
      have : (2 : ℚ) ≤ (steps : ℚ) := by exact_mod_cast h2
      linarith
    have hform : s + (i : ℚ) * (e - s) / ((steps : ℚ) - 1) =
        s + ((i : ℚ) / ((steps : ℚ) - 1)) * (e - s) := by
      rw [mul_div_right_comm]
    rw [hform]
    have hl0 : 0 ≤ (i : ℚ) / ((steps : ℚ) - 1) :=
      div_nonneg (by positivity) hd.le
    have hl1 : (i : ℚ) / ((steps : ℚ) - 1) ≤ 1 := by
      rw [div_le_one hd]
      have : (i : ℚ) ≤ (steps : ℚ) - 1 := by
        have : (i : ℚ) + 1 ≤ (steps : ℚ) := by exact_mod_cast hi
        linarith
      exact this
    exact convex_comb_mem s e _ hs0 hs1 he0 he1 hl0 hl1

/-! ### Schedule-level bounds -/

theorem betas_getD_formula (T : ℤ) (bs be : ℚ) (s : DiffusionScheduler) (i : ℕ)
    (h : DiffusionScheduler.init T bs be = .ok s) (hi : i < T.toNat) :
    s.betas.getD i 0 = bs + (i : ℚ) * (be - bs) / ((T.toNat : ℚ) - 1) := by
  obtain ⟨-, -, hb, -, -⟩ := init_fields T bs be s h
  rw [hb, linspaceList_getD bs be T.toNat i hi]

theorem betas_mem (T : ℤ) (bs be : ℚ) (s : DiffusionScheduler) (i : ℕ)
    (h : DiffusionScheduler.init T bs be = .ok s)
    (hbs0 : 0 < bs) (hbs1 : bs < 1) (hbe0 : 0 < be) (hbe1 : be < 1)
    (hi : i < T.toNat) :
    0 < s.betas.getD i 0 ∧ s.betas.getD i 0 < 1 := by
  obtain ⟨-, -, hb, -, -⟩ := init_fields T bs be s h
  rw [hb]
  exact linspaceList_getD_mem bs be T.toNat i hbs0 hbs1 hbe0 hbe1 hi

theorem alphas_getD (T : ℤ) (bs be : ℚ) (s : DiffusionScheduler) (i : ℕ)
    (h : DiffusionScheduler.init T bs be = .ok s) (hi : i < T.toNat) :
    s.alphas.getD i 0 = 1 - s.betas.getD i 0 := by
  obtain ⟨-, -, -, ha, -⟩ := init_fields T bs be s h
  obtain ⟨hbl, -, -⟩ := init_lengths T bs be s h
  rw [ha]
  exact map_getD_of_lt (fun b => 1 - b) s.betas i 0 0 (by rw [hbl]; exact hi)

theorem alphas_mem (T : ℤ) (bs be : ℚ) (s : DiffusionScheduler) (i : ℕ)
    (h : DiffusionScheduler.init T bs be = .ok s)
    (hbs0 : 0 < bs) (hbs1 : bs < 1) (hbe0 : 0 < be) (hbe1 : be < 1)
    (hi : i < T.toNat) :
    0 < s.alphas.getD i 0 ∧ s.alphas.getD i 0 < 1 := by
  rw [alphas_getD T bs be s i h hi]
  obtain ⟨h0, h1⟩ := betas_mem T bs be s i h hbs0 hbs1 hbe0 hbe1 hi
  constructor <;> linarith

theorem acp_getD_prod (T : ℤ) (bs be : ℚ) (s : DiffusionScheduler) (i : ℕ)
    (h : DiffusionScheduler.init T bs be = .ok s) (hi : i < T.toNat) :
    s.alphas_cumprod.getD i 0 = ∏ j ∈ Finset.range (i + 1), s.alphas.getD j 0 := by
  obtain ⟨-, -, -, -, hc⟩ := init_fields T bs be s h
  obtain ⟨-, hal, -⟩ := init_lengths T bs be s h
  rw [hc]
  exact cumprod_getD s.alphas i (by rw [hal]; exact hi)

theorem acp_mem (T : ℤ) (bs be : ℚ) (s : DiffusionScheduler) (i : ℕ)
    (h : DiffusionScheduler.init T bs be = .ok s)
    (hbs0 : 0 < bs) (hbs1 : bs < 1) (hbe0 : 0 < be) (hbe1 : be < 1)
    (hi : i < T.toNat) :
    0 < s.alphas_cumprod.getD i 0 ∧ s.alphas_cumprod.getD i 0 ≤ 1 := by
  rw [acp_getD_prod T bs be s i h hi]
  constructor
  · apply Finset.prod_pos
    intro j hj
    have hj' : j < T.toNat := by
      have := Finset.mem_range.mp hj
      omega
    exact (alphas_mem T bs be s j h hbs0 hbs1 hbe0 hbe1 hj').1
  · apply Finset.prod_le_one
    · intro j hj
      have hj' : j < T.toNat := by
        have := Finset.mem_range.mp hj
        omega
      exact (alphas_mem T bs be s j h hbs0 hbs1 hbe0 hbe1 hj').1.le
    · intro j hj
      have hj' : j < T.toNat := by
        have := Finset.mem_range.mp hj
        omega
      exact (alphas_mem T bs be s j h hbs0 hbs1 hbe0 hbe1 hj').2.le

theorem acp_antitone (T : ℤ) (bs be : ℚ) (s : DiffusionScheduler) (i : ℕ)
    (h : DiffusionScheduler.init T bs be = .ok s)
    (hbs0 : 0 < bs) (hbs1 : bs < 1) (hbe0 : 0 < be) (hbe1 : be < 1)
    (hi : i + 1 < T.toNat) :
    s.alphas_cumprod.getD (i + 1) 0 ≤ s.alphas_cumprod.getD i 0 := by
  rw [acp_getD_prod T bs be s i h (by omega),
    acp_getD_prod T bs be s (i + 1) h hi,
    Finset.prod_range_succ]
  have hpos := (acp_mem T bs be s i h hbs0 hbs1 hbe0 hbe1 (by omega)).1
  rw [acp_getD_prod T bs be s i h (by omega)] at hpos
  have := (alphas_mem T bs be s (i + 1) h hbs0 hbs1 hbe0 hbe1 hi)
  exact mul_le_of_le_one_right hpos.le this.2.le

/-! ### Lemmas about `gather` -/

theorem gather_ok {α : Type} [Zero α] (l : List α) (t : List ℤ)
    (h : ∀ v ∈ t, -(l.length : ℤ) ≤ v ∧ v < (l.length : ℤ)) :
    gather l t = .ok (t.map (fun v => l.getD (pyIdx l.length v) 0)) := by
  induction t with
  | nil => rfl
  | cons v vs ih =>
      have hv := h v (List.mem_cons_self v vs)
      have hvs : ∀ u ∈ vs, -(l.length : ℤ) ≤ u ∧ u < (l.length : ℤ) :=
        fun u hu => h u (List.mem_cons_of_mem v hu)
      unfold gather mapE
      rw [show gatherIdx l.length v = .ok (pyIdx l.length v) from by
        unfold gatherIdx pyIdx
        rw [if_pos hv]]
      rw [show mapE (fun u => (gatherIdx l.length u).map (fun i => l.getD i 0)) vs =
          .ok (vs.map (fun u => l.getD (pyIdx l.length u) 0)) from ih hvs]
      simp [Except.map]

theorem gather_error {α : Type} [Zero α] (l : List α) (t : List ℤ)
    (h : ∃ v ∈ t, ¬(-(l.length : ℤ) ≤ v ∧ v < (l.length : ℤ))) :
    gather l t = .error .indexError := by
  induction t with
  | nil => simp at h
  | cons v vs ih =>
      unfold gather mapE
      by_cases hv : -(l.length : ℤ) ≤ v ∧ v < (l.length : ℤ)
      · have hvs : ∃ u ∈ vs, ¬(-(l.length : ℤ) ≤ u ∧ u < (l.length : ℤ)) := by
          obtain ⟨u, hu, hbad⟩ := h
          rcases List.mem_cons.mp hu with rfl | hmem
          · exact absurd hv hbad
          · exact ⟨u, hmem, hbad⟩
        rw [show gatherIdx l.length v = .ok (pyIdx l.length v) from by
          unfold gatherIdx pyIdx
          rw [if_pos hv]]
        rw [show mapE (fun u => (gatherIdx l.length u).map (fun i => l.getD i 0)) vs =
            .error .indexError from ih hvs]
        simp [Except.map]
      · rw [show gatherIdx l.length v = .error .indexError from by
          unfold gatherIdx
          rw [if_neg hv]]
        simp [Except.map]

/-! ### Broadcast shape lemmas -/

theorem dimB_one_left (y : ℕ) : dimB 1 y = some y := by
  unfold dimB
  split_ifs with h1 h2 h3
  · rw [h1]
  · rfl
  · omega
  · omega

theorem dimB_self (x : ℕ) : dimB x x = some x := by
  simp [dimB]

theorem dimB_none (x y : ℕ) (hxy : x ≠ y) (hx : x ≠ 1) (hy : y ≠ 1) :
    dimB x y = none := by
  simp [dimB, hxy, hx, hy]

theorem bcastShapeRev_self (l : List ℕ) : bcastShapeRev l l = some l := by
  induction l with
  | nil => rfl
  | cons x xs ih => simp [bcastShapeRev, dimB_self, ih]

theorem bcast_coeff3 (B H W : ℕ) :
    bcastShapeRev [1, 1, B] [W, H, B] = some [W, H, B] := by
  simp [bcastShapeRev, dimB_one_left, dimB_self]

theorem bcast_coeff3_none (L B H W : ℕ) (hLB : L ≠ B) (hL : L ≠ 1) (hB : B ≠ 1) :
    bcastShapeRev [1, 1, L] [W, H, B] = none := by
  simp [bcastShapeRev, dimB_one_left, dimB_none L B hLB hL hB]

/-! ### Index arithmetic for a 3-D shape `[B, H, W]` -/

theorem if_one_eq (d c : ℕ) (hc : c < d) : (if d = 1 then 0 else c) = c := by
  split_ifs with h1
  · omega
  · rfl

theorem coordRev_canonical (B H W b h w : ℕ) (hb : b < B) (hh : h < H) (hw : w < W) :
    coordRev [W, H, B] (w + W * (h + H * b)) = [w, h, b] := by
  have hW0 : 0 < W := Nat.pos_of_ne_zero (by omega)
  have hH0 : 0 < H := Nat.pos_of_ne_zero (by omega)
  have e1 : (w + W * (h + H * b)) % W = w := by
    rw [Nat.add_mul_mod_self_left w W (h + H * b), Nat.mod_eq_of_lt hw]
  have e2 : (w + W * (h + H * b)) / W = h + H * b := by
    rw [Nat.add_mul_div_left w (h + H * b) hW0, Nat.div_eq_of_lt hw, zero_add]
  have e3 : (h + H * b) % H = h := by
    rw [Nat.add_mul_mod_self_left h H b, Nat.mod_eq_of_lt hh]
  have e4 : (h + H * b) / H = b := by
    rw [Nat.add_mul_div_left h b hH0, Nat.div_eq_of_lt hh, zero_add]
  simp [coordRev, e1, e2, e3, e4, Nat.mod_eq_of_lt hb]

theorem projRev_111 (B c0 c1 c2 : ℕ) (hc2 : c2 < B) :
    projRev [1, 1, B] [c0, c1, c2] = c2 := by
  simp [projRev, if_one_eq B c2 hc2]

theorem projRev_id3 (B H W b h w : ℕ) (hb : b < B) (hh : h < H) (hw : w < W) :
    projRev [W, H, B] [w, h, b] = w + W * (h + H * b) := by
  simp [projRev, if_one_eq W w hw, if_one_eq H h hh, if_one_eq B b hb]

/-! ### The `add_noise` pipeline on a 3-D batch -/

theorem tbinop_eq_of_bcast {α : Type} (f : α → α → α) (a b : Tensor α)
    (rsh : List ℕ) (h : bcastShapeRev a.shape.reverse b.shape.reverse = some rsh) :
    tbinop f a b = .ok ⟨rsh.reverse, fun k =>
      f (a.data (projRev a.shape.reverse (coordRev rsh k)))
        (b.data (projRev b.shape.reverse (coordRev rsh k)))⟩ := by
  unfold tbinop
  rw [h]

theorem addNoise_ok_3d {α : Type} [Zero α] [Mul α] [Add α]
    (sac somac : List α) (x ε : Tensor α) (t : List ℤ) (T B H W : ℕ)
    (hsac : sac.length = T) (hsomac : somac.length = T)
    (hx : x.shape = [B, H, W]) (hε : ε.shape = [B, H, W]) (ht : t.length = B)
    (htv : ∀ v ∈ t, -(T : ℤ) ≤ v ∧ v < (T : ℤ)) :
    resShape (addNoise sac somac x t ε) = .ok [B, H, W] ∧
    resNoise (addNoise sac somac x t ε) = .ok ε ∧
    ∀ b h w : ℕ, b < B → h < H → w < W →
      resData (addNoise sac somac x t ε) (w + W * (h + H * b)) =
        sac.getD (pyIdx T (t.getD b 0)) 0 * x.data (w + W * (h + H * b)) +
        somac.getD (pyIdx T (t.getD b 0)) 0 * ε.data (w + W * (h + H * b)) := by
  have e1 : gather sac t = .ok (t.map fun v => sac.getD (pyIdx T v) 0) := by
    rw [← hsac]
    exact gather_ok sac t (by rw [hsac]; exact htv)
  have e2 : gather somac t = .ok (t.map fun v => somac.getD (pyIdx T v) 0) := by
    rw [← hsomac]
    exact gather_ok somac t (by rw [hsomac]; exact htv)
  refine ⟨?_, ?_, ?_⟩
  · simp only [resShape, addNoise, e1, e2, tbinop, view3, List.length_map, ht,
      List.reverse_cons, List.reverse_nil, List.nil_append, List.cons_append,
      List.reverse_reverse, hx, hε, bcast_coeff3, bcastShapeRev_self, Except.map]
  · simp only [resNoise, addNoise, e1, e2, tbinop, view3, List.length_map, ht,
      List.reverse_cons, List.reverse_nil, List.nil_append, List.cons_append,
      List.reverse_reverse, hx, hε, bcast_coeff3, bcastShapeRev_self, Except.map]
  · intro b h w hb hh hw
    have hbt : b < t.length := by rw [ht]; exact hb
    simp only [resData, addNoise, e1, e2, tbinop, view3, List.length_map, ht,
      List.reverse_cons, List.reverse_nil, List.nil_append, List.cons_append,
      List.reverse_reverse, hx, hε, bcast_coeff3, bcastShapeRev_self, Except.map]
    rw [coordRev_canonical B H W b h w hb hh hw]
    rw [projRev_id3 B H W b h w hb hh hw]
    rw [coordRev_canonical B H W b h w hb hh hw]
    rw [projRev_111 B w h b hb]
    rw [projRev_id3 B H W b h w hb hh hw]
    rw [map_getD_of_lt (fun v => sac.getD (pyIdx T v) 0) t b 0 0 hbt]
    rw [map_getD_of_lt (fun v => somac.getD (pyIdx T v) 0) t b 0 0 hbt]

/-! ### Claim C2 -/

/-- Claim C2, counterexample: with `beta_start = 2` and `beta_end = 3` (both far
outside `(0,1)`), construction does not fail — it returns a schedule whose
single beta is `2` — so the claimed configuration-error validation does not
exist in the code. -/
theorem C2_counterexample :
    DiffusionScheduler.init 1 2 3 =
      .ok ⟨1, [2], [-1], [-1]⟩ := by
  have ht : (1 : ℤ).toNat = 1 := rfl
  norm_num [DiffusionScheduler.init, torch.linspace, torch.linspaceList,
    torch.cumprod, torch.cumprodAux, ht]

/-- Claim C2 (amended): schedule construction performs no validation of
`beta_start`/`beta_end` (any rationals are accepted) and none of
`timestep_count ≥ 1`; a schedule is returned exactly when `timestep_count ≥ 0`
(an empty schedule for `0`), and only a negative `timestep_count` fails — with
the runtime error raised by `torch.linspace`, not a configuration error. -/
theorem C2_no_validation (T : ℤ) (bs be : ℚ) :
    (DiffusionScheduler.init T bs be).isOk = true ↔ 0 ≤ T := by
  constructor
  · intro hok
    by_contra hT
    unfold DiffusionScheduler.init torch.linspace at hok
    rw [if_pos (lt_of_not_ge hT)] at hok
    simp [Except.isOk, Except.toBool] at hok
  · intro hT
    rw [init_eq_ok T bs be hT]
    rfl

/-! ### Claim C4 -/

/-- Claim C4, counterexample: the schedule built from
`beta_start = 1/2 > beta_end = 1/4` (both inside `(0,1)`, with a positive
timestep count) has `betas = [1/2, 1/4]`, which is strictly decreasing, so
"betas is non-decreasing" fails for a schedule the claim quantifies over. -/
theorem C4_counterexample :
    (DiffusionScheduler.init 2 (1/2) (1/4)).map
        (fun s => (s.betas.getD 0 0, s.betas.getD 1 0)) = .ok (1/2, 1/4) ∧
      ¬ ((1 : ℚ)/2 ≤ 1/4) := by
  have ht : (2 : ℤ).toNat = 2 := rfl
  constructor
  · norm_num [DiffusionScheduler.init, torch.linspace, torch.linspaceList,
      torch.cumprod, torch.cumprodAux, List.ofFn_succ, ht, Except.map]
  · norm_num

/-- Claim C4 (amended): for every schedule built from a positive
`timestep_count` and `beta_start`, `beta_end` in `(0,1)`:
`alphas_cumprod[i]` lies in `(0,1]` and is non-increasing unconditionally
(no order condition on the beta range is needed), while `betas` is
non-decreasing under the additional hypothesis `beta_start ≤ beta_end`
(the source does not order the beta range, and a reversed range linearly
decreases). -/
theorem C4_schedule_monotone (T : ℤ) (bs be : ℚ) (s : DiffusionScheduler) (i : ℕ)
    (hT : 0 < T) (hbs0 : 0 < bs) (hbs1 : bs < 1) (hbe0 : 0 < be) (hbe1 : be < 1)
    (h : DiffusionScheduler.init T bs be = .ok s) :
    (bs ≤ be → i + 1 < T.toNat → s.betas.getD i 0 ≤ s.betas.getD (i + 1) 0) ∧
    (i < T.toNat → 0 < s.alphas_cumprod.getD i 0 ∧ s.alphas_cumprod.getD i 0 ≤ 1) ∧
    (i + 1 < T.toNat → s.alphas_cumprod.getD (i + 1) 0 ≤ s.alphas_cumprod.getD i 0) := by
  refine ⟨?_, ?_, ?_⟩
  · intro hle hi
    rw [betas_getD_formula T bs be s i h (by omega),
      betas_getD_formula T bs be s (i + 1) h hi]
    have h2 : (0 : ℚ) < (T.toNat : ℚ) - 1 := by
      have : (2 : ℚ) ≤ (T.toNat : ℚ) := by exact_mod_cast (by omega : 2 ≤ T.toNat)
      linarith
    have hnum : (i : ℚ) * (be - bs) ≤ ((i : ℚ) + 1) * (be - bs) := by nlinarith
    have hdiv : (i : ℚ) * (be - bs) / ((T.toNat : ℚ) - 1) ≤
        ((i : ℚ) + 1) * (be - bs) / ((T.toNat : ℚ) - 1) :=
      (div_le_div_right h2).mpr hnum
    push_cast
    linarith
  · intro hi
    exact acp_mem T bs be s i h hbs0 hbs1 hbe0 hbe1 hi
  · intro hi
    exact acp_antitone T bs be s i h hbs0 hbs1 hbe0 hbe1 hi

/-- Witness for C4 (amended): the schedule built from the REVERSED range
`(T, beta_start, beta_end) = (2, 1/2, 1/4)` at index `i = 0`, exercising the
cumprod bounds and monotonicity without any beta-order condition. -/
theorem C4_witness :
    ((1 : ℚ)/2 ≤ 1/4 → 0 + 1 < (2 : ℤ).toNat →
      (⟨2, [1/2, 1/4], [1/2, 3/4], [1/2, 3/8]⟩ : DiffusionScheduler).betas.getD 0 0 ≤
        (⟨2, [1/2, 1/4], [1/2, 3/4], [1/2, 3/8]⟩ : DiffusionScheduler).betas.getD (0 + 1) 0) ∧
    (0 < (2 : ℤ).toNat →
      0 < (⟨2, [1/2, 1/4], [1/2, 3/4], [1/2, 3/8]⟩ : DiffusionScheduler).alphas_cumprod.getD 0 0 ∧
        (⟨2, [1/2, 1/4], [1/2, 3/4], [1/2, 3/8]⟩ : DiffusionScheduler).alphas_cumprod.getD 0 0 ≤ 1) ∧
    (0 + 1 < (2 : ℤ).toNat →
      (⟨2, [1/2, 1/4], [1/2, 3/4], [1/2, 3/8]⟩ : DiffusionScheduler).alphas_cumprod.getD (0 + 1) 0 ≤
        (⟨2, [1/2, 1/4], [1/2, 3/4], [1/2, 3/8]⟩ : DiffusionScheduler).alphas_cumprod.getD 0 0) :=
  C4_schedule_monotone 2 (1/2) (1/4) ⟨2, [1/2, 1/4], [1/2, 3/4], [1/2, 3/8]⟩ 0
    (by norm_num) (by norm_num) (by norm_num) (by norm_num) (by norm_num)
    (by
      have ht : (2 : ℤ).toNat = 2 := rfl
      norm_num [DiffusionScheduler.init, torch.linspace, torch.linspaceList,
        torch.cumprod, torch.cumprodAux, List.ofFn_succ, ht])

/-! ### Claim C5 -/

/-- Claim C5: for every schedule built from a positive `timestep_count` T and
any `beta_start`, `beta_end`: `betas` has length T, follows the inclusive
linear-interpolation formula (so `betas[0] = beta_start`, and for `T > 1`
`betas[T-1] = beta_end`; for `T = 1` it is exactly `[beta_start]`),
`alphas[i] = 1 - betas[i]`, and `alphas_cumprod[i]` is the running product of
`alphas[0..i]` in increasing index order; in particular
`build(1000, 1e-4, 0.02)` yields `betas[0] = 1e-4`, `betas[999] = 0.02`,
`alphas[0] = 0.9999`, `alphas_cumprod[0] = 0.9999`. -/
theorem C5_linear_schedule (T : ℤ) (bs be : ℚ) (s : DiffusionScheduler) (i : ℕ)
    (hT : 0 < T) (h : DiffusionScheduler.init T bs be = .ok s) (hi : i < T.toNat) :
    s.betas.length = T.toNat ∧
    s.betas.getD i 0 = bs + (i : ℚ) * (be - bs) / ((T.toNat : ℚ) - 1) ∧
    s.betas.getD 0 0 = bs ∧
    (1 < T → s.betas.getD (T.toNat - 1) 0 = be) ∧
    s.alphas.getD i 0 = 1 - s.betas.getD i 0 ∧
    s.alphas_cumprod.getD i 0 = ∏ j ∈ Finset.range (i + 1), s.alphas.getD j 0 ∧
    (DiffusionScheduler.init 1000 (1/10000) (1/50)).map
        (fun u => (u.betas.getD 0 0, u.betas.getD 999 0, u.alphas.getD 0 0,
          u.alphas_cumprod.getD 0 0)) =
      .ok (1/10000, 1/50, 9999/10000, 9999/10000) := by
  have hT0 : 0 < T.toNat := by omega
  refine ⟨(init_lengths T bs be s h).1, betas_getD_formula T bs be s i h hi, ?_, ?_, ?_, ?_, ?_⟩
  · rw [betas_getD_formula T bs be s 0 h hT0]
    norm_num
  · intro hT1
    have hT2 : 2 ≤ T.toNat := by omega
    rw [betas_getD_formula T bs be s (T.toNat - 1) h (by omega)]
    have hcast : ((T.toNat - 1 : ℕ) : ℚ) = (T.toNat : ℚ) - 1 := by
      push_cast [Nat.cast_sub (by omega : 1 ≤ T.toNat)]
      ring
    have hne : ((T.toNat : ℚ) - 1) ≠ 0 := by
      have h2c : (2 : ℚ) ≤ (T.toNat : ℚ) := by exact_mod_cast hT2
      intro hc
      rw [sub_eq_zero] at hc
      rw [hc] at h2c
      norm_num at h2c
    rw [hcast, mul_div_cancel_left₀ _ hne]
    ring
  · exact alphas_getD T bs be s i h hi
  · exact acp_getD_prod T bs be s i h hi
  · have hn : (0 : ℤ) ≤ 1000 := by norm_num
    have h1000 := init_eq_ok 1000 (1/10000) (1/50) hn
    obtain ⟨s', hs'⟩ :
        ∃ s', DiffusionScheduler.init 1000 (1/10000) (1/50) = .ok s' := ⟨_, h1000⟩
    have htn : (1000 : ℤ).toNat = 1000 := rfl
    have h0lt : (0 : ℕ) < (1000 : ℤ).toNat := by rw [htn]; norm_num
    have h999lt : (999 : ℕ) < (1000 : ℤ).toNat := by rw [htn]; norm_num
    have hb0 : s'.betas.getD 0 0 = 1/10000 := by
      rw [betas_getD_formula 1000 (1/10000) (1/50) s' 0 hs' h0lt, htn]
      norm_num
    have hb999 : s'.betas.getD 999 0 = 1/50 := by
      rw [betas_getD_formula 1000 (1/10000) (1/50) s' 999 hs' h999lt, htn]
      norm_num
    have ha0 : s'.alphas.getD 0 0 = 9999/10000 := by
      rw [alphas_getD 1000 (1/10000) (1/50) s' 0 hs' h0lt, hb0]
      norm_num
    have hc0 : s'.alphas_cumprod.getD 0 0 = 9999/10000 := by
      rw [acp_getD_prod 1000 (1/10000) (1/50) s' 0 hs' h0lt, Finset.range_one,
        Finset.prod_singleton, ha0]
    rw [hs']
    simp only [Except.map]
    rw [hb0, hb999, ha0, hc0]

/-- Witness for C5: the schedule built from `(2, 1/4, 1/2)` at index `i = 1`. -/
theorem C5_witness :
    (⟨2, [1/4, 1/2], [3/4, 1/2], [3/4, 3/8]⟩ : DiffusionScheduler).betas.length = (2 : ℤ).toNat ∧
    (⟨2, [1/4, 1/2], [3/4, 1/2], [3/4, 3/8]⟩ : DiffusionScheduler).betas.getD 1 0 =
      1/4 + ((1 : ℕ) : ℚ) * (1/2 - 1/4) / (((2 : ℤ).toNat : ℚ) - 1) ∧
    (⟨2, [1/4, 1/2], [3/4, 1/2], [3/4, 3/8]⟩ : DiffusionScheduler).betas.getD 0 0 = 1/4 ∧
    (1 < (2 : ℤ) →
      (⟨2, [1/4, 1/2], [3/4, 1/2], [3/4, 3/8]⟩ : DiffusionScheduler).betas.getD ((2 : ℤ).toNat - 1) 0 = 1/2) ∧
    (⟨2, [1/4, 1/2], [3/4, 1/2], [3/4, 3/8]⟩ : DiffusionScheduler).alphas.getD 1 0 =
      1 - (⟨2, [1/4, 1/2], [3/4, 1/2], [3/4, 3/8]⟩ : DiffusionScheduler).betas.getD 1 0 ∧
    (⟨2, [1/4, 1/2], [3/4, 1/2], [3/4, 3/8]⟩ : DiffusionScheduler).alphas_cumprod.getD 1 0 =
      ∏ j ∈ Finset.range (1 + 1),
        (⟨2, [1/4, 1/2], [3/4, 1/2], [3/4, 3/8]⟩ : DiffusionScheduler).alphas.getD j 0 ∧
    (DiffusionScheduler.init 1000 (1/10000) (1/50)).map
        (fun u => (u.betas.getD 0 0, u.betas.getD 999 0, u.alphas.getD 0 0,
          u.alphas_cumprod.getD 0 0)) =
      .ok (1/10000, 1/50, 9999/10000, 9999/10000) :=
  C5_linear_schedule 2 (1/4) (1/2) ⟨2, [1/4, 1/2], [3/4, 1/2], [3/4, 3/8]⟩ 1
    (by norm_num)
    (by
      have ht : (2 : ℤ).toNat = 2 := rfl
      norm_num [DiffusionScheduler.init, torch.linspace, torch.linspaceList,
        torch.cumprod, torch.cumprodAux, List.ofFn_succ, ht])
    (by decide)

/-! ### Claim C3 -/

/-- Claim C3: for every schedule built from a positive `timestep_count` T and
`beta_start`, `beta_end` in `(0,1)`, and every index `i < T`,
`sqrt_alphas_cumprod[i]^2 + sqrt_one_minus_alphas_cumprod[i]^2 = 1` holds as
an exact identity of the real-valued embedding. -/
theorem C3_sqrt_identity (T : ℤ) (bs be : ℚ) (s : DiffusionScheduler) (i : ℕ)
    (hT : 0 < T) (hbs0 : 0 < bs) (hbs1 : bs < 1) (hbe0 : 0 < be) (hbe1 : be < 1)
    (h : DiffusionScheduler.init T bs be = .ok s) (hi : i < T.toNat) :
    s.sqrt_alphas_cumprod.getD i 0 ^ 2 +
      s.sqrt_one_minus_alphas_cumprod.getD i 0 ^ 2 = 1 := by
  obtain ⟨hc0, hc1⟩ := acp_mem T bs be s i h hbs0 hbs1 hbe0 hbe1 hi
  have hlen : i < s.alphas_cumprod.length := by
    rw [(init_lengths T bs be s h).2.2]
    exact hi
  unfold DiffusionScheduler.sqrt_alphas_cumprod DiffusionScheduler.sqrt_one_minus_alphas_cumprod
  rw [map_getD_of_lt (fun q : ℚ => Real.sqrt (q : ℝ)) s.alphas_cumprod i 0 0 hlen,
    map_getD_of_lt (fun q : ℚ => Real.sqrt (1 - (q : ℝ))) s.alphas_cumprod i 0 0 hlen]
  have ha0 : (0 : ℝ) ≤ ((s.alphas_cumprod.getD i 0 : ℚ) : ℝ) := by exact_mod_cast hc0.le
  have ha1 : ((s.alphas_cumprod.getD i 0 : ℚ) : ℝ) ≤ 1 := by exact_mod_cast hc1
  rw [Real.sq_sqrt ha0, Real.sq_sqrt (by linarith : (0 : ℝ) ≤ 1 - ((s.alphas_cumprod.getD i 0 : ℚ) : ℝ))]
  ring

/-- Witness for C3: the schedule built from `(1, 1/2, 1/2)` at index `0`. -/
theorem C3_witness :
    (⟨1, [1/2], [1/2], [1/2]⟩ : DiffusionScheduler).sqrt_alphas_cumprod.getD 0 0 ^ 2 +
      (⟨1, [1/2], [1/2], [1/2]⟩ : DiffusionScheduler).sqrt_one_minus_alphas_cumprod.getD 0 0 ^ 2 = 1 :=
  C3_sqrt_identity 1 (1/2) (1/2) ⟨1, [1/2], [1/2], [1/2]⟩ 0
    (by norm_num) (by norm_num) (by norm_num) (by norm_num) (by norm_num)
    (by
      have ht : (1 : ℤ).toNat = 1 := rfl
      norm_num [DiffusionScheduler.init, torch.linspace, torch.linspaceList,
        torch.cumprod, torch.cumprodAux, ht])
    (by decide)

/-! ### Setup lemmas connecting a built schedule to `add_noise` -/

theorem sqrt_lists_length (T : ℤ) (bs be : ℚ) (s : DiffusionScheduler)
    (hinit : DiffusionScheduler.init T bs be = .ok s) :
    s.sqrt_alphas_cumprod.length = T.toNat ∧
    s.sqrt_one_minus_alphas_cumprod.length = T.toNat := by
  have hlen : s.alphas_cumprod.length = T.toNat := (init_lengths T bs be s hinit).2.2
  constructor
  · unfold DiffusionScheduler.sqrt_alphas_cumprod
    rw [List.length_map, hlen]
  · unfold DiffusionScheduler.sqrt_one_minus_alphas_cumprod
    rw [List.length_map, hlen]

theorem tvalid_cast (T : ℤ) (t : List ℤ) (hT : 0 ≤ T)
    (htv : ∀ v ∈ t, -T ≤ v ∧ v < T) :
    ∀ v ∈ t, -(T.toNat : ℤ) ≤ v ∧ v < (T.toNat : ℤ) := by
  intro v hv
  have h := htv v hv
  have hc : ((T.toNat : ℤ)) = T := Int.toNat_of_nonneg hT
  omega

/-! ### Claim C1 -/

/-- Claim C1, counterexample: the claim quantifies over batches of any rank,
but for a 1-D batch `x_0` of shape `(3,)` with a valid timestep vector of
length 3 and noise of the same shape, the hardcoded `.view(-1, 1, 1)`
broadcast makes `add_noise` return a tensor of shape `(3, 1, 3)` — not a
batch of 3 elements shaped like `x_0` — so the claimed per-element affine
combination `x_t[b] = c1 * x_0[b] + c2 * ε[b]` fails outside 3-D inputs. -/
theorem C1_counterexample :
    resShape ((⟨1, [1/2], [1/2], [1/2]⟩ : DiffusionScheduler).add_noise
        ⟨[3], fun _ => 0⟩ [0, 0, 0] ⟨[3], fun _ => 0⟩) = .ok [3, 1, 3] ∧
      ([3, 1, 3] : List ℕ) ≠ [3] :=
  ⟨rfl, by decide⟩

/-- Claim C1 (amended): for every built schedule, every 3-D batch `x_0` of
shape `(B, H, W)` — the dimensionality `add_noise`'s hardcoded
`.view(-1, 1, 1)` broadcast supports — every timestep vector `t` of `B`
indices each in `[0, T-1]`, and every noise tensor `ε` of the same shape,
`add_noise` returns `x_t` with
`x_t[b] = sqrt_alphas_cumprod[t[b]] * x_0[b] +
sqrt_one_minus_alphas_cumprod[t[b]] * ε[b]`, the two scalars applied
uniformly at every non-batch position `(h, w)` of element `b`; and because
`add_noise` is a pure function of `(schedule, x_0, t, ε)`, re-running it on
the same arguments reproduces the same `x_t` exactly (last conjunct). -/
theorem C1_add_noise_affine (T : ℤ) (bs be : ℚ) (s : DiffusionScheduler)
    (x ε : Tensor ℝ) (t : List ℤ) (B H W b h w : ℕ)
    (hinit : DiffusionScheduler.init T bs be = .ok s)
    (hx : x.shape = [B, H, W]) (hε : ε.shape = [B, H, W]) (ht : t.length = B)
    (htv : ∀ v ∈ t, 0 ≤ v ∧ v < T)
    (hb : b < B) (hh : h < H) (hw : w < W) :
    resShape (s.add_noise x t ε) = .ok [B, H, W] ∧
    resData (s.add_noise x t ε) (w + W * (h + H * b)) =
      s.sqrt_alphas_cumprod.getD (t.getD b 0).toNat 0 * x.data (w + W * (h + H * b)) +
        s.sqrt_one_minus_alphas_cumprod.getD (t.getD b 0).toNat 0 * ε.data (w + W * (h + H * b)) ∧
    s.add_noise x t ε = s.add_noise x t ε := by
  have hTnn : 0 ≤ T := (init_fields T bs be s hinit).1
  obtain ⟨hsac, hsomac⟩ := sqrt_lists_length T bs be s hinit
  have htv' := tvalid_cast T t hTnn (fun v hv => ⟨by linarith [(htv v hv).1], (htv v hv).2⟩)
  obtain ⟨h1, h2, h3⟩ := addNoise_ok_3d s.sqrt_alphas_cumprod
    s.sqrt_one_minus_alphas_cumprod x ε t T.toNat B H W hsac hsomac hx hε ht htv'
  have hform := h3 b h w hb hh hw
  have hbt : b < t.length := by rw [ht]; exact hb
  have hmem : t.getD b 0 ∈ t := by
    rw [List.getD_eq_getElem t 0 hbt]
    exact List.getElem_mem hbt
  have hnn : 0 ≤ t.getD b 0 := (htv _ hmem).1
  have hpy : pyIdx T.toNat (t.getD b 0) = (t.getD b 0).toNat := by
    unfold pyIdx
    rw [if_neg (not_lt.mpr hnn)]
  rw [hpy] at hform
  refine ⟨?_, ?_, rfl⟩
  · simp only [DiffusionScheduler.add_noise]
    exact h1
  · simp only [DiffusionScheduler.add_noise]
    exact hform

/-- Witness for C1: the schedule built from `(1, 1/2, 1/2)`, a one-element
batch of shape `(1, 1, 1)` with constant value `1`, `t = [0]`, and zero
noise. -/
theorem C1_witness :
    resShape ((⟨1, [1/2], [1/2], [1/2]⟩ : DiffusionScheduler).add_noise
        ⟨[1, 1, 1], fun _ => 1⟩ [0] ⟨[1, 1, 1], fun _ => 0⟩) = .ok [1, 1, 1] ∧
    resData ((⟨1, [1/2], [1/2], [1/2]⟩ : DiffusionScheduler).add_noise
        ⟨[1, 1, 1], fun _ => 1⟩ [0] ⟨[1, 1, 1], fun _ => 0⟩) (0 + 1 * (0 + 1 * 0)) =
      (⟨1, [1/2], [1/2], [1/2]⟩ : DiffusionScheduler).sqrt_alphas_cumprod.getD
          (([0] : List ℤ).getD 0 0).toNat 0 *
          (⟨[1, 1, 1], fun _ => 1⟩ : Tensor ℝ).data (0 + 1 * (0 + 1 * 0)) +
        (⟨1, [1/2], [1/2], [1/2]⟩ : DiffusionScheduler).sqrt_one_minus_alphas_cumprod.getD
          (([0] : List ℤ).getD 0 0).toNat 0 *
          (⟨[1, 1, 1], fun _ => 0⟩ : Tensor ℝ).data (0 + 1 * (0 + 1 * 0)) ∧
    (⟨1, [1/2], [1/2], [1/2]⟩ : DiffusionScheduler).add_noise
        ⟨[1, 1, 1], fun _ => 1⟩ [0] ⟨[1, 1, 1], fun _ => 0⟩ =
      (⟨1, [1/2], [1/2], [1/2]⟩ : DiffusionScheduler).add_noise
        ⟨[1, 1, 1], fun _ => 1⟩ [0] ⟨[1, 1, 1], fun _ => 0⟩ :=
  C1_add_noise_affine 1 (1/2) (1/2) ⟨1, [1/2], [1/2], [1/2]⟩
    ⟨[1, 1, 1], fun _ => 1⟩ ⟨[1, 1, 1], fun _ => 0⟩ [0] 1 1 1 0 0 0
    (by
      have ht : (1 : ℤ).toNat = 1 := rfl
      norm_num [DiffusionScheduler.init, torch.linspace, torch.linspaceList,
        torch.cumprod, torch.cumprodAux, ht])
    rfl rfl rfl (by decide) (by decide) (by decide) (by decide)

/-! ### Claim C6 -/

/-- Claim C6, counterexample: a 1-D clean batch `x_0` of shape `(2,)` with a
matching timestep vector of length 2 is accepted, but because the code
hardcodes `.view(-1, 1, 1)`, the result has shape `(2, 1, 2)`, not the shape
of `x_0` — so shape preservation fails for inputs that are not 3-D. -/
theorem C6_counterexample :
    resShape ((⟨1, [1/2], [1/2], [1/2]⟩ : DiffusionScheduler).add_noise
        ⟨[2], fun _ => 0⟩ [0, 0] ⟨[2], fun _ => 0⟩) = .ok [2, 1, 2] ∧
      ([2, 1, 2] : List ℕ) ≠ [2] :=
  ⟨rfl, by decide⟩

/-- Claim C6 (amended): `add_noise` preserves shape and numeric type for 3-D
inputs `(B, H, W)` — the dimensionality the hardcoded `.view(-1, 1, 1)`
broadcast supports: `x_t` has the shape of `x_0` and the returned `ε` is
exactly the drawn noise, whose shape equals that of `x_0`.  (The element type
`ℝ` is preserved statically: both outputs are `Tensor ℝ`.)  For other ranks
the hardcoded view either fails to broadcast or, as in the counterexample,
silently changes the shape. -/
theorem C6_shape_preservation (T : ℤ) (bs be : ℚ) (s : DiffusionScheduler)
    (x ε : Tensor ℝ) (t : List ℤ) (B H W : ℕ)
    (hinit : DiffusionScheduler.init T bs be = .ok s)
    (hx : x.shape = [B, H, W]) (hε : ε.shape = [B, H, W]) (ht : t.length = B)
    (htv : ∀ v ∈ t, 0 ≤ v ∧ v < T) :
    resShape (s.add_noise x t ε) = .ok x.shape ∧
    resNoise (s.add_noise x t ε) = .ok ε ∧
    ε.shape = x.shape := by
  have hTnn : 0 ≤ T := (init_fields T bs be s hinit).1
  obtain ⟨hsac, hsomac⟩ := sqrt_lists_length T bs be s hinit
  have htv' := tvalid_cast T t hTnn (fun v hv => ⟨by linarith [(htv v hv).1], (htv v hv).2⟩)
  obtain ⟨h1, h2, -⟩ := addNoise_ok_3d s.sqrt_alphas_cumprod
    s.sqrt_one_minus_alphas_cumprod x ε t T.toNat B H W hsac hsomac hx hε ht htv'
  refine ⟨?_, ?_, ?_⟩
  · simp only [DiffusionScheduler.add_noise]
    rw [hx]
    exact h1
  · simp only [DiffusionScheduler.add_noise]
    exact h2
  · rw [hx, hε]

/-- Witness for C6 (amended): the `(1, 1/2, 1/2)` schedule on a `(1, 1, 1)`
batch with `t = [0]` and zero noise. -/
theorem C6_witness :
    resShape ((⟨1, [1/2], [1/2], [1/2]⟩ : DiffusionScheduler).add_noise
        ⟨[1, 1, 1], fun _ => 2⟩ [0] ⟨[1, 1, 1], fun _ => 3⟩) =
      .ok (⟨[1, 1, 1], fun _ => 2⟩ : Tensor ℝ).shape ∧
    resNoise ((⟨1, [1/2], [1/2], [1/2]⟩ : DiffusionScheduler).add_noise
        ⟨[1, 1, 1], fun _ => 2⟩ [0] ⟨[1, 1, 1], fun _ => 3⟩) =
      .ok ⟨[1, 1, 1], fun _ => 3⟩ ∧
    (⟨[1, 1, 1], fun _ => 3⟩ : Tensor ℝ).shape = (⟨[1, 1, 1], fun _ => 2⟩ : Tensor ℝ).shape :=
  C6_shape_preservation 1 (1/2) (1/2) ⟨1, [1/2], [1/2], [1/2]⟩
    ⟨[1, 1, 1], fun _ => 2⟩ ⟨[1, 1, 1], fun _ => 3⟩ [0] 1 1 1
    (by
      have ht : (1 : ℤ).toNat = 1 := rfl
      norm_num [DiffusionScheduler.init, torch.linspace, torch.linspaceList,
        torch.cumprod, torch.cumprodAux, ht])
    rfl rfl rfl (by decide)

/-! ### Claim C7 -/

/-- Claim C7, counterexample: a timestep vector of length 1 against a batch of
size 2 does NOT raise a shape-mismatch error — the length-1 coefficient row
broadcasts across the batch and the call succeeds — so "fails whenever
`len(t) != B`" is false. -/
theorem C7_counterexample :
    resShape ((⟨1, [1/2], [1/2], [1/2]⟩ : DiffusionScheduler).add_noise
        ⟨[2, 1, 1], fun _ => 0⟩ [0] ⟨[2, 1, 1], fun _ => 0⟩) = .ok [2, 1, 1] :=
  rfl

/-- Claim C7 (amended): for a 3-D batch of size `B` and valid timestep values,
`add_noise` raises the shape-mismatch error exactly in the non-broadcastable
case: when `len(t)` differs from `B` and neither `len(t)` nor `B` is 1 (a
length-1 side is broadcast instead of rejected).  In particular a `t` of
length 3 against a batch of size 2 raises the error (witness). -/
theorem C7_shape_mismatch (T : ℤ) (bs be : ℚ) (s : DiffusionScheduler)
    (x ε : Tensor ℝ) (t : List ℤ) (L B H W : ℕ)
    (hinit : DiffusionScheduler.init T bs be = .ok s)
    (hx : x.shape = [B, H, W]) (ht : t.length = L)
    (htv : ∀ v ∈ t, 0 ≤ v ∧ v < T)
    (hLB : L ≠ B) (hL1 : L ≠ 1) (hB1 : B ≠ 1) :
    s.add_noise x t ε = .error .shapeError := by
  have hTnn : 0 ≤ T := (init_fields T bs be s hinit).1
  obtain ⟨hsac, hsomac⟩ := sqrt_lists_length T bs be s hinit
  have htv' := tvalid_cast T t hTnn (fun v hv => ⟨by linarith [(htv v hv).1], (htv v hv).2⟩)
  have e1 : gather s.sqrt_alphas_cumprod t =
      .ok (t.map fun v => s.sqrt_alphas_cumprod.getD (pyIdx T.toNat v) 0) := by
    rw [← hsac]
    exact gather_ok _ t (by rw [hsac]; exact htv')
  have e2 : gather s.sqrt_one_minus_alphas_cumprod t =
      .ok (t.map fun v => s.sqrt_one_minus_alphas_cumprod.getD (pyIdx T.toNat v) 0) := by
    rw [← hsomac]
    exact gather_ok _ t (by rw [hsomac]; exact htv')
  simp only [DiffusionScheduler.add_noise, addNoise, e1, e2, tbinop, view3,
    List.length_map, ht, List.reverse_cons, List.reverse_nil, List.nil_append,
    List.cons_append, hx, bcast_coeff3_none L B H W hLB hL1 hB1]

/-- Witness for C7 (amended): `t` of length 3 against a batch of size 2
raises the shape-mismatch error. -/
theorem C7_witness :
    (⟨1, [1/2], [1/2], [1/2]⟩ : DiffusionScheduler).add_noise
        ⟨[2, 1, 1], fun _ => 0⟩ [0, 0, 0] ⟨[2, 1, 1], fun _ => 0⟩ =
      .error .shapeError :=
  C7_shape_mismatch 1 (1/2) (1/2) ⟨1, [1/2], [1/2], [1/2]⟩
    ⟨[2, 1, 1], fun _ => 0⟩ ⟨[2, 1, 1], fun _ => 0⟩ [0, 0, 0] 3 2 1 1
    (by
      have ht : (1 : ℤ).toNat = 1 := rfl
      norm_num [DiffusionScheduler.init, torch.linspace, torch.linspaceList,
        torch.cumprod, torch.cumprodAux, ht])
    rfl rfl (by decide) (by decide) (by decide) (by decide)

/-! ### Claim C8 -/

/-- Claim C8, counterexample: `t = [-1]` lies outside `[0, T-1]` for the
schedule of size 1, yet `add_noise` completes without an index error (the
negative index wraps around), so "fails whenever any value in `t` lies
outside `[0, T-1]`" is false. -/
theorem C8_counterexample :
    resShape ((⟨1, [1/2], [1/2], [1/2]⟩ : DiffusionScheduler).add_noise
        ⟨[1, 1, 1], fun _ => 0⟩ [-1] ⟨[1, 1, 1], fun _ => 0⟩) = .ok [1, 1, 1] :=
  rfl

/-- Claim C8 (amended): for every schedule of size `T`, `add_noise` fails with
the index error whenever some value of `t` lies outside `[-T, T-1]` (torch
accepts Python-style negative indices down to `-T`; values in `[-T, -1]` wrap
instead of raising, see C9).  In particular `t = T`, one past the last valid
index, raises the index error (witness), and since the gather runs before any
arithmetic, no partial result is produced — the call returns only the error. -/
theorem C8_index_error (T : ℤ) (bs be : ℚ) (s : DiffusionScheduler)
    (x ε : Tensor ℝ) (t : List ℤ) (v : ℤ)
    (hinit : DiffusionScheduler.init T bs be = .ok s)
    (hv : v ∈ t) (hbad : v < -T ∨ T ≤ v) :
    s.add_noise x t ε = .error .indexError := by
  have hTnn : 0 ≤ T := (init_fields T bs be s hinit).1
  obtain ⟨hsac, -⟩ := sqrt_lists_length T bs be s hinit
  have hc : ((T.toNat : ℤ)) = T := Int.toNat_of_nonneg hTnn
  have e1 : gather s.sqrt_alphas_cumprod t = .error .indexError := by
    apply gather_error
    refine ⟨v, hv, ?_⟩
    rw [hsac]
    intro hcon
    omega
  simp only [DiffusionScheduler.add_noise, addNoise, e1]

/-- Witness for C8 (amended): calling with `t = [1]` on a schedule of size 1
(one past the last valid index 0) raises the index error. -/
theorem C8_witness :
    (⟨1, [1/2], [1/2], [1/2]⟩ : DiffusionScheduler).add_noise
        ⟨[1, 1, 1], fun _ => 0⟩ [1] ⟨[1, 1, 1], fun _ => 0⟩ =
      .error .indexError :=
  C8_index_error 1 (1/2) (1/2) ⟨1, [1/2], [1/2], [1/2]⟩
    ⟨[1, 1, 1], fun _ => 0⟩ ⟨[1, 1, 1], fun _ => 0⟩ [1] 1
    (by
      have ht : (1 : ℤ).toNat = 1 := rfl
      norm_num [DiffusionScheduler.init, torch.linspace, torch.linspaceList,
        torch.cumprod, torch.cumprodAux, ht])
    (by decide) (by decide)

/-! ### Claim C9 -/

/-- Claim C9: for every schedule of size `T` and every well-shaped call whose
timestep values lie in `[-T, T-1]`, if the value for batch element `b` is
negative then `add_noise` completes without raising any error and uses the
coefficients at schedule index `T + t[b]` (Python-style negative indexing)
for that element, rather than rejecting the index. -/
theorem C9_negative_indexing (T : ℤ) (bs be : ℚ) (s : DiffusionScheduler)
    (x ε : Tensor ℝ) (t : List ℤ) (B H W b h w : ℕ)
    (hinit : DiffusionScheduler.init T bs be = .ok s)
    (hx : x.shape = [B, H, W]) (hε : ε.shape = [B, H, W]) (ht : t.length = B)
    (htv : ∀ v ∈ t, -T ≤ v ∧ v < T)
    (hb : b < B) (hh : h < H) (hw : w < W)
    (hneg : t.getD b 0 < 0) :
    resShape (s.add_noise x t ε) = .ok [B, H, W] ∧
    resData (s.add_noise x t ε) (w + W * (h + H * b)) =
      s.sqrt_alphas_cumprod.getD (T + t.getD b 0).toNat 0 * x.data (w + W * (h + H * b)) +
        s.sqrt_one_minus_alphas_cumprod.getD (T + t.getD b 0).toNat 0 *
          ε.data (w + W * (h + H * b)) := by
  have hTnn : 0 ≤ T := (init_fields T bs be s hinit).1
  obtain ⟨hsac, hsomac⟩ := sqrt_lists_length T bs be s hinit
  have htv' := tvalid_cast T t hTnn htv
  obtain ⟨h1, -, h3⟩ := addNoise_ok_3d s.sqrt_alphas_cumprod
    s.sqrt_one_minus_alphas_cumprod x ε t T.toNat B H W hsac hsomac hx hε ht htv'
  have hform := h3 b h w hb hh hw
  have hc : ((T.toNat : ℤ)) = T := Int.toNat_of_nonneg hTnn
  have hpy : pyIdx T.toNat (t.getD b 0) = (T + t.getD b 0).toNat := by
    unfold pyIdx
    rw [if_pos hneg]
    omega
  rw [hpy] at hform
  constructor
  · simp only [DiffusionScheduler.add_noise]
    exact h1
  · simp only [DiffusionScheduler.add_noise]
    exact hform

/-- Witness for C9: the `(1, 1/2, 1/2)` schedule with `t = [-1]`, which wraps
to index `0`. -/
theorem C9_witness :
    resShape ((⟨1, [1/2], [1/2], [1/2]⟩ : DiffusionScheduler).add_noise
        ⟨[1, 1, 1], fun _ => 2⟩ [-1] ⟨[1, 1, 1], fun _ => 3⟩) = .ok [1, 1, 1] ∧
    resData ((⟨1, [1/2], [1/2], [1/2]⟩ : DiffusionScheduler).add_noise
        ⟨[1, 1, 1], fun _ => 2⟩ [-1] ⟨[1, 1, 1], fun _ => 3⟩) (0 + 1 * (0 + 1 * 0)) =
      (⟨1, [1/2], [1/2], [1/2]⟩ : DiffusionScheduler).sqrt_alphas_cumprod.getD
          ((1 : ℤ) + ([-1] : List ℤ).getD 0 0).toNat 0 *
          (⟨[1, 1, 1], fun _ => 2⟩ : Tensor ℝ).data (0 + 1 * (0 + 1 * 0)) +
        (⟨1, [1/2], [1/2], [1/2]⟩ : DiffusionScheduler).sqrt_one_minus_alphas_cumprod.getD
          ((1 : ℤ) + ([-1] : List ℤ).getD 0 0).toNat 0 *
          (⟨[1, 1, 1], fun _ => 3⟩ : Tensor ℝ).data (0 + 1 * (0 + 1 * 0)) :=
  C9_negative_indexing 1 (1/2) (1/2) ⟨1, [1/2], [1/2], [1/2]⟩
    ⟨[1, 1, 1], fun _ => 2⟩ ⟨[1, 1, 1], fun _ => 3⟩ [-1] 1 1 1 0 0 0
    (by
      have ht : (1 : ℤ).toNat = 1 := rfl
      norm_num [DiffusionScheduler.init, torch.linspace, torch.linspaceList,
        torch.cumprod, torch.cumprodAux, ht])
    rfl rfl rfl (by decide) (by decide) (by decide) (by decide) (by decide)

/-! ### Claim C10 -/

/-- Claim C10: `add_noise` never mutates its inputs.  The method body contains
no assignment to `self` and no in-place tensor operation, so its state-passing
translation returns the pre-state unchanged: after any call (successful or
failing) the input `x_0` is unchanged and every field of the schedule —
`timesteps`, `betas`, `alphas`, `alphas_cumprod`, `sqrt_alphas_cumprod`,
`sqrt_one_minus_alphas_cumprod` — is exactly as at construction; and the
produced result is the same pure function of the inputs on every run. -/
theorem C10_no_mutation (s : DiffusionScheduler) (x ε : Tensor ℝ) (t : List ℤ) :
    (s.add_noise_state x t ε).1.1 = s ∧
    (s.add_noise_state x t ε).1.2 = x ∧
    (s.add_noise_state x t ε).1.1.timesteps = s.timesteps ∧
    (s.add_noise_state x t ε).1.1.betas = s.betas ∧
    (s.add_noise_state x t ε).1.1.alphas = s.alphas ∧
    (s.add_noise_state x t ε).1.1.alphas_cumprod = s.alphas_cumprod ∧
    (s.add_noise_state x t ε).1.1.sqrt_alphas_cumprod = s.sqrt_alphas_cumprod ∧
    (s.add_noise_state x t ε).1.1.sqrt_one_minus_alphas_cumprod =
      s.sqrt_one_minus_alphas_cumprod ∧
    (s.add_noise_state x t ε).2 = s.add_noise x t ε :=
  ⟨rfl, rfl, rfl, rfl, rfl, rfl, rfl, rfl, rfl⟩
